import Mathlib

set_option maxRecDepth 8192

/-!
Shallow embedding of `src/quiz_generator.py` (class `QuizGenerator`).

Python strings are modelled as Lean `String` / `List Char`; the ASCII
behaviour of `str.lower`, `str.strip`, `str.split`, and of the regexes
`\b[a-zA-Z]{3,}\b` and `[.!?]+` is modelled character by character
(the model is faithful for ASCII text; Python additionally treats some
non-ASCII codepoints as word characters or whitespace).

Randomness (`random.choice`, `random.shuffle`) is modelled by threading an
explicit list of natural-number draws: each `random.choice` consumes one
draw and selects `xs[d % len xs]` (returning `none` on an empty list, the
situation in which CPython raises `IndexError`), and `random.shuffle` is a
draw-indexed selection shuffle that can realise every permutation of its
input.  All claims are proved for every draw sequence.
-/

namespace QuizGenerator

/-! ### Randomness model -/

/-- Pop one draw from the stream (an exhausted stream yields the draw 0). -/
def take1 : List Nat → Nat × List Nat
  | [] => (0, [])
  | d :: ds => (d, ds)

/-- Model of `random.choice(xs)`: consume one draw `d` and pick `xs[d % len(xs)]`.
On an empty list the result is `none` (CPython raises `IndexError`). -/
def choice (xs : List α) (rs : List Nat) : Option α × List Nat :=
  let p := take1 rs
  (xs[p.1 % xs.length]?, p.2)

/-- Model of `random.shuffle`: repeatedly consume a draw, remove the selected
element and put it in front.  Every permutation of the input is reachable.
The `fuel` argument makes the recursion structural; `shuffle` instantiates
it with the length of the list, which is exact. -/
def shuffleAux (fuel : Nat) (l : List α) (rs : List Nat) : List α × List Nat :=
  match fuel, l with
  | 0, l => (l, rs)
  | _ + 1, [] => ([], rs)
  | fuel + 1, x :: xs =>
    let p := take1 rs
    let i := p.1 % (x :: xs).length
    let rest := (x :: xs).eraseIdx i
    let q := shuffleAux fuel rest p.2
    ((x :: xs).getD i x :: q.1, q.2)

/-- Model of `random.shuffle` on a list. -/
def shuffle (l : List α) (rs : List Nat) : List α × List Nat :=
  shuffleAux l.length l rs

/-! ### Character classes (ASCII models of Python `str` behaviour) -/

/-- ASCII model of `[a-z]` after lowering (`c.isLower` semantics). -/
def isLowerAlpha (c : Char) : Bool := 97 ≤ c.toNat ∧ c.toNat ≤ 122

/-- ASCII model of the regex class `[a-zA-Z]`. -/
def isAsciiAlpha (c : Char) : Bool :=
  (65 ≤ c.toNat ∧ c.toNat ≤ 90) || isLowerAlpha c

/-- ASCII model of the regex class `\w` = `[A-Za-z0-9_]`, which determines
the word boundaries `\b` used by `re.findall`. -/
def isWordChar (c : Char) : Bool :=
  isAsciiAlpha c || (48 ≤ c.toNat ∧ c.toNat ≤ 57) || c = '_'

/-- ASCII model of `str.lower` on one character. -/
def pyLower (c : Char) : Char :=
  if 65 ≤ c.toNat ∧ c.toNat ≤ 90 then Char.ofNat (c.toNat + 32) else c

/-- The sentence delimiters of the regex `[.!?]+`. -/
def isDelim (c : Char) : Bool := c = '.' || c = '!' || c = '?'

/-- ASCII model of the whitespace recognised by `str.strip` / `str.split`:
space, tab, newline, carriage return, vertical tab, form feed. -/
def pySpace (c : Char) : Bool :=
  c = ' ' || c = '\t' || c = '\n' || c = '\r' || c.toNat = 11 || c.toNat = 12

/-! ### Tokenisation -/

/-- Maximal runs of characters satisfying `p`; characters not satisfying `p`
separate runs and are dropped.  `acc` holds the current run, reversed. -/
def runsAux (p : Char → Bool) (acc : List Char) : List Char → List (List Char)
  | [] => if acc.isEmpty then [] else [acc.reverse]
  | c :: cs =>
    if p c then runsAux p (c :: acc) cs
    else if acc.isEmpty then runsAux p [] cs
    else acc.reverse :: runsAux p [] cs

/-- Maximal runs of characters satisfying `p`. -/
def runs (p : Char → Bool) (l : List Char) : List (List Char) := runsAux p [] l

/-- Model of `re.findall(r'\b[a-zA-Z]{3,}\b', text.lower())`: the maximal
`\w`-runs of the lowered text that consist only of letters and have length
at least 3 (a run containing a digit or underscore yields no match because
the inner positions are not word boundaries). -/
def words (text : String) : List String :=
  ((runs isWordChar (text.data.map pyLower)).filter
      fun r => decide (3 ≤ r.length) && r.all isAsciiAlpha).map
    fun r => String.mk r

/-- Model of `re.split(r'[.!?]+', text)`: the fields between maximal runs of
`.`/`!`/`?`, including empty boundary fields.  `acc` holds the current field,
reversed; `inRun` records whether the previous character was a delimiter. -/
def splitSentAux (acc : List Char) (inRun : Bool) : List Char → List (List Char)
  | [] => [acc.reverse]
  | c :: cs =>
    if isDelim c then
      if inRun then splitSentAux [] true cs
      else acc.reverse :: splitSentAux [] true cs
    else splitSentAux (c :: acc) false cs

/-- Model of `re.split(r'[.!?]+', text)`. -/
def splitSentences (l : List Char) : List (List Char) := splitSentAux [] false l

/-- Model of `str.strip()` (ASCII whitespace). -/
def pyStrip (l : List Char) : List Char :=
  ((l.dropWhile pySpace).reverse.dropWhile pySpace).reverse

/-- Model of no-argument `str.split()`: maximal non-whitespace runs. -/
def pySplit (l : List Char) : List (List Char) := runs (fun c => !pySpace c) l

/-! ### The stopword set and frequency counting -/

/-- The `common_words` set of `extract_key_terms`, listed in source order
(the duplicate entry `"her"` of the Python literal is kept; it is harmless
because only membership is ever used). -/
def common_words : List String :=
  ["the", "a", "an", "and", "or", "but", "in", "on", "at", "to", "for",
   "of", "with", "by", "is", "are", "was", "were", "be", "been", "being",
   "have", "has", "had", "do", "does", "did", "will", "would", "could",
   "should", "may", "might", "must", "can", "this", "that", "these",
   "those", "i", "you", "he", "she", "it", "we", "they", "me", "him",
   "her", "us", "them", "my", "your", "his", "her", "its", "our", "their"]

/-- Model of `word_freq[word] = word_freq.get(word, 0) + 1` on an
insertion-ordered dictionary: increment the first matching key, or append
a fresh key with count 1. -/
def bump : List (String × Nat) → String → List (String × Nat)
  | [], w => [(w, 1)]
  | (k, v) :: m, w => if k = w then (k, v + 1) :: m else (k, v) :: bump m w

/-- The `word_freq` dictionary of `extract_key_terms`: fold the word list,
skipping stopwords, into an insertion-ordered association list. -/
def countFreq (ws : List String) : List (String × Nat) :=
  ws.foldl (fun m w => if w ∈ common_words then m else bump m w) []

/-! ### `QuizGenerator.extract_key_terms` -/

/-- Embedding of `QuizGenerator.extract_key_terms`. -/
def extract_key_terms (text : String) : List String :=
  let word_freq := countFreq (words text)
  let key_terms := (word_freq.filter fun p => 2 ≤ p.2).map Prod.fst
  let key_terms2 :=
    if key_terms.length < 10 then
      key_terms ++
        ((word_freq.filter fun p => p.2 = 1).map Prod.fst).take (10 - key_terms.length)
    else key_terms
  key_terms2.take 15

/-! ### `QuizGenerator.extract_sentences` -/

/-- The loop body of `extract_sentences`: strip each fragment and keep it
when its whitespace-delimited word count is at least 5. -/
def meaningfulLoop : List (List Char) → List String
  | [] => []
  | s :: ss =>
    let s2 := pyStrip s
    if 5 ≤ (pySplit s2).length then String.mk s2 :: meaningfulLoop ss
    else meaningfulLoop ss

/-- Embedding of `QuizGenerator.extract_sentences`. -/
def extract_sentences (text : String) : List String :=
  meaningfulLoop (splitSentences text.data)

/-! ### Fixed template tables -/

/-- The `question_starters` table of the constructor. -/
def question_starters : List String :=
  ["What is the significance of",
   "How does",
   "Why is",
   "What are the main characteristics of",
   "Explain the relationship between",
   "What factors contribute to",
   "How can we understand",
   "What role does"]

/-- The `essay_prompts` table; each template has one insertion point, so it
is modelled as the pair of the text before and after the placeholder. -/
def essay_prompts : List (String × String) :=
  [("Analyze and discuss the key concepts presented in the text regarding ",
    ". Provide specific examples and explain their significance."),
   ("Compare and contrast different aspects of ",
    " mentioned in the document. How do these elements relate to each other?"),
   ("Evaluate the importance of ",
    " in the context provided. What are the potential implications or consequences?"),
   ("Describe the main themes related to ",
    " and explain how they connect to broader concepts or real-world applications."),
   ("Critically examine ",
    " as presented in the text. What questions or areas for further research does this raise?")]

/-- Model of `prompt_template.format(term)`. -/
def fmtPrompt (p : String × String) (t : String) : String := p.1 ++ t ++ p.2

/-! ### `QuizGenerator.generate_essay_questions` -/

/-- The fixed generic essay question, labelled with its 1-based index. -/
def genericEssay (n : Nat) : String :=
  "Essay Question " ++ toString n ++
    ": Analyze the main ideas presented in the provided text and discuss their significance. Support your analysis with specific examples from the material."

/-- The `for i, term in enumerate(selected_terms[:2])` loop: one
`random.choice(self.essay_prompts)` per term, labelled with its index. -/
def essayLoop (i : Nat) (terms : List String) (rs : List Nat) :
    Option (List String) × List Nat :=
  match terms with
  | [] => (some [], rs)
  | t :: ts =>
    match choice essay_prompts rs with
    | (none, rs1) => (none, rs1)
    | (some p, rs1) =>
      let q := "Essay Question " ++ toString (i + 1) ++ ": " ++ fmtPrompt p t
      match essayLoop (i + 1) ts rs1 with
      | (none, rs2) => (none, rs2)
      | (some qs, rs2) => (some (q :: qs), rs2)

/-- The `while len(essay_questions) < 2` padding loop.  The structural
`fuel` argument bounds the number of iterations; two iterations are exact
for every input, because each iteration grows the list by one and the loop
stops as soon as the length reaches 2. -/
def padLoop : Nat → List String → List String
  | 0, qs => qs
  | fuel + 1, qs =>
    if qs.length < 2 then padLoop fuel (qs ++ [genericEssay (qs.length + 1)])
    else qs

/-- The `while len(essay_questions) < 2` padding loop. -/
def padEssays (qs : List String) : List String := padLoop 2 qs

/-- Embedding of `QuizGenerator.generate_essay_questions` (the unused `text`
parameter of the Python method is kept). -/
def generate_essay_questions (text : String) (key_terms : List String)
    (rs : List Nat) : Option (List String) × List Nat :=
  let selected_terms := if 3 ≤ key_terms.length then key_terms.take 3 else key_terms
  match essayLoop 0 (selected_terms.take 2) rs with
  | (none, rs1) => (none, rs1)
  | (some qs, rs1) => (some (padEssays qs), rs1)

/-! ### `QuizGenerator.generate_multiple_choice` -/

/-- An MC question record: `{'question': ..., 'options': ...,
'correct_answer': ..., 'explanation': ...}`. -/
structure MCQ where
  question : String
  options : List String
  correct_answer : Char
  explanation : String
deriving DecidableEq, Repr

/-- The fixed generic record of the `else` branch of the loop in
`generate_multiple_choice`. -/
def genericMCQ : MCQ :=
  { question := "What is a key concept discussed in the text?"
    options := ["A main idea from the provided material",
                "An unrelated concept",
                "A different topic entirely",
                "Something not mentioned in the text"]
    correct_answer := 'A'
    explanation := "This question tests comprehension of the main content." }

/-- The record produced by the in-bounds branch for term `alpha` when every
draw is 0 (used as concrete witness data below). -/
def mcqAlpha : MCQ :=
  { question := "What is the significance of alpha?"
    options := ["Related to alpha as mentioned in the context",
                "Unrelated concept A about alpha",
                "Unrelated concept B about alpha",
                "Unrelated concept C about alpha"]
    correct_answer := 'A'
    explanation := "This question focuses on understanding alpha in the given context." }

/-- Model of `random.choice(key_terms) if key_terms else fallback`: the
choice (and its draw) happens only when the list is non-empty. -/
def pickTerm (key_terms : List String) (fallback : String) (rs : List Nat) :
    Option String × List Nat :=
  if key_terms.isEmpty then (some fallback, rs) else choice key_terms rs

/-- The intended correct-answer text of the in-bounds branch. -/
def correctText (term : String) : String :=
  "Related to " ++ (term ++ " as mentioned in the context")

/-- One iteration of the `for i in range(3)` loop of
`generate_multiple_choice`.  In the in-bounds branch, `context_sentence`
is computed exactly as in the source but never used afterwards; the final
`indexOf` models `options.index(correct_answer)`, which would raise
(`none`) only if the correct text were absent after shuffling. -/
def mcQuestion (key_terms sentences : List String) (i : Nat) (rs : List Nat) :
    Option MCQ × List Nat :=
  if i < key_terms.length ∧ i < sentences.length then
    let term := key_terms.getD i ""
    let _context_sentence :=
      if i < sentences.length then sentences.getD i "" else sentences.getD 0 ""
    match choice question_starters rs with
    | (none, rs1) => (none, rs1)
    | (some starter, rs1) =>
      let question := starter ++ " " ++ term ++ "?"
      let correct_answer := correctText term
      match pickTerm key_terms "general topic" rs1 with
      | (none, rs2) => (none, rs2)
      | (some t1, rs2) =>
        match pickTerm key_terms "another topic" rs2 with
        | (none, rs3) => (none, rs3)
        | (some t2, rs3) =>
          match pickTerm key_terms "different subject" rs3 with
          | (none, rs4) => (none, rs4)
          | (some t3, rs4) =>
            let options := [correct_answer,
                            "Unrelated concept A about " ++ t1,
                            "Unrelated concept B about " ++ t2,
                            "Unrelated concept C about " ++ t3]
            let sh := shuffle options rs4
            let correct_index := sh.1.indexOf correct_answer
            if correct_index < sh.1.length then
              (some { question := question
                      options := sh.1
                      correct_answer := Char.ofNat (65 + correct_index)
                      explanation :=
                        "This question focuses on understanding " ++ term ++
                          " in the given context." }, sh.2)
            else (none, sh.2)
  else (some genericMCQ, rs)

/-- Embedding of `QuizGenerator.generate_multiple_choice`: the loop body
run for `i = 0, 1, 2` (the unused `text` parameter is kept). -/
def generate_multiple_choice (text : String) (key_terms sentences : List String)
    (rs : List Nat) : Option (List MCQ) × List Nat :=
  match mcQuestion key_terms sentences 0 rs with
  | (none, rs1) => (none, rs1)
  | (some q0, rs1) =>
    match mcQuestion key_terms sentences 1 rs1 with
    | (none, rs2) => (none, rs2)
    | (some q1, rs2) =>
      match mcQuestion key_terms sentences 2 rs2 with
      | (none, rs3) => (none, rs3)
      | (some q2, rs3) => (some [q0, q1, q2], rs3)

/-! ### `QuizGenerator.generate_content` -/

/-- The part of `generate_content` after the emptiness fast path: call the
two generators on the extracted key terms and sentences and pair their
results.  (Factored out so that it can be reasoned about with the extracted
lists abstracted; `generate_content` instantiates them exactly as the
source does.) -/
def generate_content_core (input_text : String) (key_terms sentences : List String)
    (rs : List Nat) : Option (List String × List MCQ) × List Nat :=
  match generate_essay_questions input_text key_terms rs with
  | (none, rs1) => (none, rs1)
  | (some essay_questions, rs1) =>
    match generate_multiple_choice input_text key_terms sentences rs1 with
    | (none, rs2) => (none, rs2)
    | (some mc_questions, rs2) => (some (essay_questions, mc_questions), rs2)

/-- Embedding of `QuizGenerator.generate_content`. -/
def generate_content (input_text : String) (rs : List Nat) :
    Option (List String × List MCQ) × List Nat :=
  if (pyStrip input_text.data).isEmpty then (some ([], []), rs)
  else
    generate_content_core input_text (extract_key_terms input_text)
      (extract_sentences input_text) rs

/-! ### Reference notions used to state the claims about extraction -/

/-- The non-stopword occurrence list: the extracted words with stopwords
removed, in text order (what the counting loop of `extract_key_terms`
actually consumes). -/
def nonStopWords (text : String) : List String :=
  (words text).filter fun w => decide (w ∉ common_words)

/-- The observed frequency of a word in a text: its number of occurrences
among the non-stopword words. -/
def obsFreq (text : String) (w : String) : Nat := (nonStopWords text).count w

/-- First-seen (discovery) order: keep the first occurrence of each element
not already in `seen`, dropping later duplicates. -/
def firstSeenAux (seen : List String) : List String → List String
  | [] => []
  | w :: ws =>
    if w ∈ seen then firstSeenAux seen ws
    else w :: firstSeenAux (w :: seen) ws

/-- The distinct elements of a list in discovery order. -/
def firstSeen (ws : List String) : List String := firstSeenAux [] ws

/-- Lookup in an association list (first matching key, default 0) — the
reference reading of the `word_freq` dictionary. -/
def getCount : List (String × Nat) → String → Nat
  | [], _ => 0
  | (k, v) :: m, w => if k = w then v else getCount m w

/-- The frequency-2-or-more terms in discovery order (the reference reading
of the primary `key_terms` list of `extract_key_terms`). -/
def primaryTerms (text : String) : List String :=
  (firstSeen (nonStopWords text)).filter fun w => decide (2 ≤ obsFreq text w)

/-- The frequency-1 terms in discovery order (the reference reading of the
`single_terms` list of `extract_key_terms`). -/
def singleTerms (text : String) : List String :=
  (firstSeen (nonStopWords text)).filter fun w => decide (obsFreq text w = 1)

/-- The sentence list as the specification describes it: split on runs of
`.`/`!`/`?`, trim each fragment, keep exactly the fragments with at least
5 whitespace-delimited words, in order. -/
def sentencesSpec (text : String) : List String :=
  (((splitSentences text.data).map pyStrip).filter
      fun s => decide (5 ≤ (pySplit s).length)).map fun s => String.mk s

/-! ## Helper lemmas -/

/-- On a non-empty list, `choice` succeeds and returns a member. -/
theorem choice_of_ne_nil {α : Type} (xs : List α) (rs : List Nat) (h : xs ≠ []) :
    ∃ a, choice xs rs = (some a, (take1 rs).2) ∧ a ∈ xs := by
  have hlt : (take1 rs).1 % xs.length < xs.length :=
    Nat.mod_lt _ (List.length_pos.mpr h)
  exact ⟨xs[(take1 rs).1 % xs.length],
    by simp [choice, List.getElem?_eq_getElem hlt], List.getElem_mem hlt⟩

/-- Selecting the `i`-th element and erasing it is a permutation. -/
theorem getD_cons_eraseIdx_perm {α : Type} (d : α) :
    ∀ (l : List α) (i : Nat), i < l.length → (l.getD i d :: l.eraseIdx i).Perm l
  | a :: l, 0, _ => by simp
  | a :: l, i + 1, h => by
    have hi : i < l.length := by simpa using h
    have ih := getD_cons_eraseIdx_perm d l i hi
    simp only [List.getD_cons_succ, List.eraseIdx_cons_succ]
    exact (List.Perm.swap a (l.getD i d) (l.eraseIdx i)).trans (ih.cons a)

/-- `shuffleAux` with enough fuel permutes its input. -/
theorem shuffleAux_perm {α : Type} :
    ∀ (fuel : Nat) (l : List α) (rs : List Nat), l.length ≤ fuel →
      (shuffleAux fuel l rs).1.Perm l
  | 0, l, rs, h => by
    have : l = [] := List.eq_nil_of_length_eq_zero (Nat.le_zero.mp h)
    subst this; simp [shuffleAux]
  | _ + 1, [], rs, _ => by simp [shuffleAux]
  | fuel + 1, x :: xs, rs, h => by
    simp only [shuffleAux]
    have hi : (take1 rs).1 % (x :: xs).length < (x :: xs).length :=
      Nat.mod_lt _ (Nat.succ_pos _)
    have hlen : ((x :: xs).eraseIdx ((take1 rs).1 % (x :: xs).length)).length ≤ fuel := by
      rw [List.length_eraseIdx_of_lt hi]
      simpa using Nat.le_of_succ_le_succ h
    have ih := shuffleAux_perm fuel ((x :: xs).eraseIdx ((take1 rs).1 % (x :: xs).length))
      (take1 rs).2 hlen
    exact ((ih.cons _).trans (getD_cons_eraseIdx_perm x (x :: xs) _ hi))

/-- `shuffle` permutes its input. -/
theorem shuffle_perm {α : Type} (l : List α) (rs : List Nat) :
    (shuffle l rs).1.Perm l :=
  shuffleAux_perm l.length l rs (Nat.le_refl _)

/-- Behaviour of the padding loop on an empty list. -/
theorem padEssays_nil : padEssays [] = [genericEssay 1, genericEssay 2] := rfl

/-- Behaviour of the padding loop on a one-element list. -/
theorem padEssays_one (q : String) : padEssays [q] = [q, genericEssay 2] := rfl

/-- Behaviour of the padding loop on a two-element list. -/
theorem padEssays_two (q1 q2 : String) : padEssays [q1, q2] = [q1, q2] := rfl

/-- The numbered label produced for the first essay question. -/
theorem label_one (s : String) :
    "Essay Question " ++ toString (0 + 1) ++ ": " ++ s = "Essay Question 1: " ++ s := by
  have h : "Essay Question " ++ toString (0 + 1) ++ ": " = "Essay Question 1: " := by decide
  calc "Essay Question " ++ toString (0 + 1) ++ ": " ++ s
      = ("Essay Question " ++ toString (0 + 1) ++ ": ") ++ s := rfl
    _ = "Essay Question 1: " ++ s := by rw [h]

/-- The numbered label produced for the second essay question. -/
theorem label_two (s : String) :
    "Essay Question " ++ toString (1 + 1) ++ ": " ++ s = "Essay Question 2: " ++ s := by
  have h : "Essay Question " ++ toString (1 + 1) ++ ": " = "Essay Question 2: " := by decide
  calc "Essay Question " ++ toString (1 + 1) ++ ": " ++ s
      = ("Essay Question " ++ toString (1 + 1) ++ ": ") ++ s := rfl
    _ = "Essay Question 2: " ++ s := by rw [h]

/-- The generic essay text carries the label of its 1-based index. -/
theorem genericEssay_one : ∃ a, genericEssay 1 = "Essay Question 1: " ++ a :=
  ⟨"Analyze the main ideas presented in the provided text and discuss their significance. Support your analysis with specific examples from the material.",
   by decide⟩

/-- The generic essay text carries the label of its 1-based index. -/
theorem genericEssay_two : ∃ a, genericEssay 2 = "Essay Question 2: " ++ a :=
  ⟨"Analyze the main ideas presented in the provided text and discuss their significance. Support your analysis with specific examples from the material.",
   by decide⟩

/-- Two concatenations are different whenever the fixed texts they start
with differ within the first `n` characters. -/
theorem append_ne_append (p q x y : String) (n : Nat)
    (hp : n ≤ p.length) (hq : n ≤ q.length)
    (h : p.data.take n ≠ q.data.take n) : p ++ x ≠ q ++ y := by
  intro he
  apply h
  have hd := congrArg (fun s : String => s.data.take n) he
  simpa [String.data_append, List.take_append_eq_append_take,
    Nat.sub_eq_zero_of_le hp, Nat.sub_eq_zero_of_le hq] using hd

/-- On a non-empty key-term list, `pickTerm` performs the choice. -/
theorem pickTerm_of_ne_nil (kt : List String) (f : String) (rs : List Nat)
    (h : kt ≠ []) :
    ∃ t, pickTerm kt f rs = (some t, (take1 rs).2) ∧ t ∈ kt := by
  obtain ⟨t, hc, hm⟩ := choice_of_ne_nil kt rs h
  refine ⟨t, ?_, hm⟩
  simp only [pickTerm, List.isEmpty_eq_false.mpr h, Bool.false_eq_true, if_false, hc]

/-- The correct-answer text never coincides with a distractor: the former
starts with the letter R, the latter with U. -/
theorem correct_ne_distractor (t u : String) (c : String)
    (hc : c = "Unrelated concept A about " ∨ c = "Unrelated concept B about " ∨
          c = "Unrelated concept C about ") :
    correctText t ≠ c ++ u := by
  rcases hc with h | h | h <;> subst h <;>
    exact append_ne_append _ _ _ _ 1 (by decide) (by decide) (by decide)

/-- Distractors with different letters are distinct whatever terms are
substituted: they differ at character position 18. -/
theorem distractor_ne_distractor (p q u v : String)
    (hp : p = "Unrelated concept A about " ∨ p = "Unrelated concept B about " ∨
          p = "Unrelated concept C about ")
    (hq : q = "Unrelated concept A about " ∨ q = "Unrelated concept B about " ∨
          q = "Unrelated concept C about ")
    (hne : p ≠ q) : p ++ u ≠ q ++ v := by
  rcases hp with h | h | h <;> rcases hq with h2 | h2 | h2 <;> subst h <;> subst h2 <;>
    first
      | exact absurd rfl hne
      | exact append_ne_append _ _ _ _ 19 (by decide) (by decide) (by decide)

/-- The four option strings of the in-bounds branch are pairwise distinct. -/
theorem options_nodup (t t1 t2 t3 : String) :
    ([correctText t,
      "Unrelated concept A about " ++ t1,
      "Unrelated concept B about " ++ t2,
      "Unrelated concept C about " ++ t3] : List String).Nodup := by
  refine List.nodup_cons.mpr ⟨?_, List.nodup_cons.mpr ⟨?_,
    List.nodup_cons.mpr ⟨?_, List.nodup_singleton _⟩⟩⟩
  · intro h
    rcases List.mem_cons.mp h with h | h
    · exact correct_ne_distractor t t1 _ (Or.inl rfl) h
    rcases List.mem_cons.mp h with h | h
    · exact correct_ne_distractor t t2 _ (Or.inr (Or.inl rfl)) h
    rcases List.mem_cons.mp h with h | h
    · exact correct_ne_distractor t t3 _ (Or.inr (Or.inr rfl)) h
    · exact absurd h (List.not_mem_nil _)
  · intro h
    rcases List.mem_cons.mp h with h | h
    · exact distractor_ne_distractor _ _ t1 t2 (Or.inl rfl) (Or.inr (Or.inl rfl)) (by decide) h
    rcases List.mem_cons.mp h with h | h
    · exact distractor_ne_distractor _ _ t1 t3 (Or.inl rfl) (Or.inr (Or.inr rfl)) (by decide) h
    · exact absurd h (List.not_mem_nil _)
  · intro h
    rcases List.mem_cons.mp h with h | h
    · exact distractor_ne_distractor _ _ t2 t3 (Or.inr (Or.inl rfl)) (Or.inr (Or.inr rfl))
        (by decide) h
    · exact absurd h (List.not_mem_nil _)

/-- Characterisation of the in-bounds branch of the `for i in range(3)`
loop body: the produced record uses `key_terms[i]`, a random question
starter, a shuffle of the four assembled options, and the letter of the
post-shuffle position of the correct text. -/
theorem mcQuestion_inbounds (kt ss : List String) (i : Nat) (rs : List Nat)
    (h1 : i < kt.length) (h2 : i < ss.length) :
    ∃ st t1 t2 t3 sh rs5,
      st ∈ question_starters ∧ t1 ∈ kt ∧ t2 ∈ kt ∧ t3 ∈ kt ∧
      sh.Perm [correctText (kt.getD i ""),
               "Unrelated concept A about " ++ t1,
               "Unrelated concept B about " ++ t2,
               "Unrelated concept C about " ++ t3] ∧
      mcQuestion kt ss i rs =
        (some { question := st ++ " " ++ kt.getD i "" ++ "?"
                options := sh
                correct_answer := Char.ofNat (65 + sh.indexOf (correctText (kt.getD i "")))
                explanation := "This question focuses on understanding " ++
                  kt.getD i "" ++ " in the given context." }, rs5) := by
  have hkt : kt ≠ [] := by
    intro h; rw [h] at h1; simp at h1
  obtain ⟨st, hst, hstm⟩ := choice_of_ne_nil question_starters rs (by decide)
  obtain ⟨t1, ht1, ht1m⟩ := pickTerm_of_ne_nil kt "general topic" (take1 rs).2 hkt
  obtain ⟨t2, ht2, ht2m⟩ :=
    pickTerm_of_ne_nil kt "another topic" (take1 (take1 rs).2).2 hkt
  obtain ⟨t3, ht3, ht3m⟩ :=
    pickTerm_of_ne_nil kt "different subject" (take1 (take1 (take1 rs).2).2).2 hkt
  set opts : List String :=
    [correctText (kt.getD i ""),
     "Unrelated concept A about " ++ t1,
     "Unrelated concept B about " ++ t2,
     "Unrelated concept C about " ++ t3] with hopts
  set rs4 : List Nat := (take1 (take1 (take1 (take1 rs).2).2).2).2 with hrs4
  have hperm : (shuffle opts rs4).1.Perm opts := shuffle_perm opts rs4
  have hmem : correctText (kt.getD i "") ∈ (shuffle opts rs4).1 :=
    hperm.mem_iff.mpr (by simp [hopts])
  have hidx : (shuffle opts rs4).1.indexOf (correctText (kt.getD i "")) <
      (shuffle opts rs4).1.length := List.indexOf_lt_length.mpr hmem
  refine ⟨st, t1, t2, t3, (shuffle opts rs4).1, (shuffle opts rs4).2,
    hstm, ht1m, ht2m, ht3m, hperm, ?_⟩
  simp only [mcQuestion, if_pos (And.intro h1 h2), hst, ht1, ht2, ht3, if_pos hidx]

/-- The out-of-bounds branch of the loop body yields the fixed generic
record and consumes no draws. -/
theorem mcQuestion_outbounds (kt ss : List String) (i : Nat) (rs : List Nat)
    (h : ¬(i < kt.length ∧ i < ss.length)) :
    mcQuestion kt ss i rs = (some genericMCQ, rs) := by
  simp only [mcQuestion, if_neg h]

/-- The loop body always succeeds. -/
theorem mcQuestion_isSome (kt ss : List String) (i : Nat) (rs : List Nat) :
    ∃ q rs', mcQuestion kt ss i rs = (some q, rs') := by
  by_cases h : i < kt.length ∧ i < ss.length
  · obtain ⟨st, t1, t2, t3, sh, rs5, _, _, _, _, _, heq⟩ :=
      mcQuestion_inbounds kt ss i rs h.1 h.2
    exact ⟨_, rs5, heq⟩
  · exact ⟨genericMCQ, rs, mcQuestion_outbounds kt ss i rs h⟩

/-- `generate_multiple_choice` always returns three records, produced by
the three iterations of the loop body in sequence. -/
theorem generate_mc_spec (text : String) (kt ss : List String) (rs : List Nat) :
    ∃ q0 q1 q2 r1 r2 r3,
      mcQuestion kt ss 0 rs = (some q0, r1) ∧
      mcQuestion kt ss 1 r1 = (some q1, r2) ∧
      mcQuestion kt ss 2 r2 = (some q2, r3) ∧
      generate_multiple_choice text kt ss rs = (some [q0, q1, q2], r3) := by
  obtain ⟨q0, r1, h0⟩ := mcQuestion_isSome kt ss 0 rs
  obtain ⟨q1, r2, h1⟩ := mcQuestion_isSome kt ss 1 r1
  obtain ⟨q2, r3, h2⟩ := mcQuestion_isSome kt ss 2 r2
  exact ⟨q0, q1, q2, r1, r2, r3, h0, h1, h2,
    by simp only [generate_multiple_choice, h0, h1, h2]⟩

/-- The essay loop on a single term performs one prompt choice. -/
theorem essayLoop_one (t : String) (rs : List Nat) :
    ∃ p rs', p ∈ essay_prompts ∧
      essayLoop 0 [t] rs =
        (some ["Essay Question " ++ toString (0 + 1) ++ ": " ++ fmtPrompt p t], rs') := by
  obtain ⟨p, hc, hm⟩ := choice_of_ne_nil essay_prompts rs (by decide)
  exact ⟨p, (take1 rs).2, hm, by simp only [essayLoop, hc]⟩

/-- The essay loop on two terms performs two prompt choices. -/
theorem essayLoop_two (t1 t2 : String) (rs : List Nat) :
    ∃ p q rs', p ∈ essay_prompts ∧ q ∈ essay_prompts ∧
      essayLoop 0 [t1, t2] rs =
        (some ["Essay Question " ++ toString (0 + 1) ++ ": " ++ fmtPrompt p t1,
               "Essay Question " ++ toString (1 + 1) ++ ": " ++ fmtPrompt q t2], rs') := by
  obtain ⟨p, hc1, hm1⟩ := choice_of_ne_nil essay_prompts rs (by decide)
  obtain ⟨q, hc2, hm2⟩ := choice_of_ne_nil essay_prompts (take1 rs).2 (by decide)
  refine ⟨p, q, (take1 (take1 rs).2).2, hm1, hm2, ?_⟩
  simp only [essayLoop, hc1, hc2]

/-- `generate_essay_questions` always succeeds and returns exactly two
questions carrying the labels `Essay Question 1: ` and `Essay Question 2: `. -/
theorem generate_essay_spec (text : String) (kt : List String) (rs : List Nat) :
    ∃ a b rs', generate_essay_questions text kt rs =
      (some ["Essay Question 1: " ++ a, "Essay Question 2: " ++ b], rs') := by
  rcases kt with _ | ⟨t1, _ | ⟨t2, ts⟩⟩
  · obtain ⟨a, ha⟩ := genericEssay_one
    obtain ⟨b, hb⟩ := genericEssay_two
    have h : generate_essay_questions text [] rs =
        (some [genericEssay 1, genericEssay 2], rs) := rfl
    exact ⟨a, b, rs, by rw [h, ha, hb]⟩
  · obtain ⟨b, hb⟩ := genericEssay_two
    obtain ⟨p, rs', hm, hloop⟩ := essayLoop_one t1 rs
    refine ⟨fmtPrompt p t1, b, rs', ?_⟩
    have hc : ¬ 3 ≤ ([t1] : List String).length := by simp
    simp only [generate_essay_questions, if_neg hc, List.take_succ_cons, List.take_nil,
      hloop, padEssays_one, label_one, hb]
  · obtain ⟨p, q, rs', hm1, hm2, hloop⟩ := essayLoop_two t1 t2 rs
    refine ⟨fmtPrompt p t1, fmtPrompt q t2, rs', ?_⟩
    have hsel : (if 3 ≤ (t1 :: t2 :: ts).length then (t1 :: t2 :: ts).take 3
        else t1 :: t2 :: ts).take 2 = [t1, t2] := by
      split
      · rw [List.take_take]
        simp [List.take_succ_cons]
      · simp [List.take_succ_cons]
    simp only [generate_essay_questions, hsel, hloop, padEssays_two, label_one, label_two]

/-- Every record produced by the loop body has 4 options, and the option
at position `correct_answer - 'A'` is the intended correct text of the
branch that produced the record. -/
theorem mcQuestion_options (kt ss : List String) (i : Nat) (rs rs' : List Nat)
    (q : MCQ) (h : mcQuestion kt ss i rs = (some q, rs')) :
    q.options.length = 4 ∧
    q.options.getD (q.correct_answer.toNat - 65) "" =
      (if i < kt.length ∧ i < ss.length then correctText (kt.getD i "")
       else "A main idea from the provided material") := by
  by_cases hb : i < kt.length ∧ i < ss.length
  · obtain ⟨st, t1, t2, t3, sh, rs5, _, _, _, _, hperm, heq⟩ :=
      mcQuestion_inbounds kt ss i rs hb.1 hb.2
    rw [heq] at h
    obtain ⟨hq, _⟩ := Prod.mk.injEq .. ▸ h
    replace hq := Option.some.inj hq
    subst hq
    have hlen : sh.length = 4 := by
      simpa using hperm.length_eq
    have hmem : correctText (kt.getD i "") ∈ sh := hperm.mem_iff.mpr (by simp)
    have hidx : sh.indexOf (correctText (kt.getD i "")) < sh.length :=
      List.indexOf_lt_length.mpr hmem
    refine ⟨hlen, ?_⟩
    rw [if_pos hb]
    have hn4 : sh.indexOf (correctText (kt.getD i "")) < 4 := hlen ▸ hidx
    have htn : (Char.ofNat (65 + sh.indexOf (correctText (kt.getD i "")))).toNat - 65 =
        sh.indexOf (correctText (kt.getD i "")) := by
      interval_cases h : sh.indexOf (correctText (kt.getD i "")) <;> decide
    show sh.getD _ "" = _
    rw [htn, List.getD_eq_getElem sh "" hidx]
    exact List.getElem_indexOf hidx
  · rw [mcQuestion_outbounds kt ss i rs hb] at h
    obtain ⟨hq, _⟩ := Prod.mk.injEq .. ▸ h
    replace hq := Option.some.inj hq
    subst hq
    rw [if_neg hb]
    exact ⟨by decide, by decide⟩

/-- With the extracted lists abstracted, the core of `generate_content`
always succeeds with two labelled essay questions and three MC records. -/
theorem generate_content_core_spec (text : String) (kt ss : List String)
    (rs : List Nat) :
    ∃ a b qs rs', (qs : List MCQ).length = 3 ∧
      generate_content_core text kt ss rs =
        (some (["Essay Question 1: " ++ a, "Essay Question 2: " ++ b], qs), rs') := by
  obtain ⟨a, b, rs1, hes⟩ := generate_essay_spec text kt rs
  obtain ⟨q0, q1, q2, r1, r2, r3, _, _, _, hmc⟩ := generate_mc_spec text kt ss rs1
  exact ⟨a, b, [q0, q1, q2], r3, rfl,
    by simp only [generate_content_core, hes, hmc]⟩

/-! ## C1 -/

/-- C1: for every input whose stripped form is non-empty, `generate_content`
returns exactly 2 essay questions labelled `Essay Question 1: ` and
`Essay Question 2: ` and exactly 3 MC records; for every input whose
stripped form is empty it returns two empty lists. -/
theorem C1_generate_content_shape (text : String) (rs rs' : List Nat)
    (es : List String) (qs : List MCQ)
    (h : generate_content text rs = (some (es, qs), rs')) :
    (pyStrip text.data ≠ [] →
      qs.length = 3 ∧
        ∃ a b, es = ["Essay Question 1: " ++ a, "Essay Question 2: " ++ b]) ∧
    (pyStrip text.data = [] → es = [] ∧ qs = []) := by
  by_cases hs : pyStrip text.data = []
  · have hb : (pyStrip text.data).isEmpty = true := by
      rw [hs]; rfl
    have hgen : generate_content text rs = (some ([], []), rs) := by
      unfold generate_content
      rw [if_pos hb]
    rw [hgen] at h
    obtain ⟨hq, _⟩ := Prod.mk.injEq .. ▸ h
    replace hq := Option.some.inj hq
    obtain ⟨hes, hqs⟩ := Prod.mk.injEq .. ▸ hq.symm
    exact ⟨fun hne => absurd hs hne, fun _ => ⟨hes, hqs⟩⟩
  · obtain ⟨a, b, qs3, rs3, hlen, hcore⟩ :=
      generate_content_core_spec text (extract_key_terms text) (extract_sentences text) rs
    have hgen : generate_content text rs =
        (some (["Essay Question 1: " ++ a, "Essay Question 2: " ++ b], qs3), rs3) := by
      unfold generate_content
      rw [if_neg (by simp [List.isEmpty_eq_false.mpr hs])]
      exact hcore
    rw [hgen] at h
    obtain ⟨hq, _⟩ := Prod.mk.injEq .. ▸ h
    replace hq := Option.some.inj hq
    obtain ⟨hes2, hqs2⟩ := Prod.mk.injEq .. ▸ hq
    refine ⟨fun _ => ?_, fun hemp => absurd hemp hs⟩
    rw [← hqs2, ← hes2]
    exact ⟨hlen, a, b, rfl⟩

set_option maxHeartbeats 1000000 in
/-- Witness for C1 at the concrete input `"a b. c."` with an empty draw
stream: the stripped text is non-empty, two labelled generic essays and
three generic MC records come back. -/
theorem C1_witness :
    (pyStrip ("a b. c." : String).data ≠ [] →
      ([genericMCQ, genericMCQ, genericMCQ] : List MCQ).length = 3 ∧
        ∃ a b, [genericEssay 1, genericEssay 2] =
          ["Essay Question 1: " ++ a, "Essay Question 2: " ++ b]) ∧
    (pyStrip ("a b. c." : String).data = [] →
      [genericEssay 1, genericEssay 2] = ([] : List String) ∧
        [genericMCQ, genericMCQ, genericMCQ] = ([] : List MCQ)) :=
  C1_generate_content_shape "a b. c." [] [] [genericEssay 1, genericEssay 2]
    [genericMCQ, genericMCQ, genericMCQ] (by decide)

/-! ## Lemmas about the frequency dictionary -/

/-- Keys of the dictionary after an update: unchanged if the key was
present, appended at the end otherwise. -/
theorem bump_map_fst (m : List (String × Nat)) (w : String) :
    (bump m w).map Prod.fst =
      if w ∈ m.map Prod.fst then m.map Prod.fst else m.map Prod.fst ++ [w] := by
  induction m with
  | nil => simp [bump]
  | cons p m ih =>
    obtain ⟨k, v⟩ := p
    by_cases hk : k = w
    · subst hk
      simp [bump]
    · simp only [bump, if_neg hk, List.map_cons, ih]
      by_cases hw : w ∈ m.map Prod.fst <;>
        simp [hw, List.mem_cons, Ne.symm hk]

/-- Updating a key increments its looked-up count. -/
theorem getCount_bump_self (m : List (String × Nat)) (w : String) :
    getCount (bump m w) w = getCount m w + 1 := by
  induction m with
  | nil => simp [bump, getCount]
  | cons p m ih =>
    obtain ⟨k, v⟩ := p
    by_cases hk : k = w
    · subst hk
      simp [bump, getCount]
    · simp [bump, getCount, hk, ih]

/-- Updating one key leaves other lookups unchanged. -/
theorem getCount_bump_ne (m : List (String × Nat)) (w v : String) (h : v ≠ w) :
    getCount (bump m w) v = getCount m v := by
  induction m with
  | nil => simp [bump, getCount, Ne.symm h]
  | cons p m ih =>
    obtain ⟨k, u⟩ := p
    by_cases hk : k = w
    · subst hk
      simp [bump, getCount, Ne.symm h]
    · simp [bump, getCount, hk, ih]

/-- The stopword guard of the counting loop is the same as pre-filtering
the word list. -/
theorem foldl_guard_eq_filter (l : List String) :
    ∀ m : List (String × Nat),
      l.foldl (fun m w => if w ∈ common_words then m else bump m w) m =
        (l.filter fun w => decide (w ∉ common_words)).foldl bump m := by
  induction l with
  | nil => intro m; rfl
  | cons w ws ih =>
    intro m
    by_cases hw : w ∈ common_words <;>
      simp [List.filter_cons, hw, ih]

/-- Folding the update over a word list adds the occurrence counts. -/
theorem getCount_foldl_bump (l : List String) :
    ∀ (m : List (String × Nat)) (w : String),
      getCount (l.foldl bump m) w = getCount m w + l.count w := by
  induction l with
  | nil => intro m w; simp
  | cons x xs ih =>
    intro m w
    by_cases hx : x = w
    · subst hx
      simp [List.foldl_cons, ih, getCount_bump_self]
      omega
    · simp [List.foldl_cons, ih, getCount_bump_ne m x w (Ne.symm hx),
        List.count_cons_of_ne (Ne.symm hx)]

/-- `firstSeenAux` depends on `seen` only through membership. -/
theorem firstSeenAux_congr (l : List String) :
    ∀ s1 s2 : List String, (∀ x, x ∈ s1 ↔ x ∈ s2) →
      firstSeenAux s1 l = firstSeenAux s2 l := by
  induction l with
  | nil => intro s1 s2 _; rfl
  | cons w ws ih =>
    intro s1 s2 h
    by_cases hw : w ∈ s1
    · simp only [firstSeenAux, if_pos hw, if_pos ((h w).mp hw)]
      exact ih s1 s2 h
    · simp only [firstSeenAux, if_neg hw, if_neg (fun hc => hw ((h w).mpr hc))]
      congr 1
      refine ih (w :: s1) (w :: s2) ?_
      intro x
      simp [List.mem_cons, h x]

/-- The dictionary keys are exactly the words in discovery order. -/
theorem map_fst_foldl_bump (l : List String) :
    ∀ m : List (String × Nat),
      (l.foldl bump m).map Prod.fst =
        m.map Prod.fst ++ firstSeenAux (m.map Prod.fst) l := by
  induction l with
  | nil => intro m; simp [firstSeenAux]
  | cons w ws ih =>
    intro m
    rw [List.foldl_cons, ih (bump m w), bump_map_fst]
    by_cases hw : w ∈ m.map Prod.fst
    · rw [if_pos hw,
        show firstSeenAux (m.map Prod.fst) (w :: ws) = firstSeenAux (m.map Prod.fst) ws
          from by simp only [firstSeenAux, if_pos hw]]
    · rw [if_neg hw,
        show firstSeenAux (m.map Prod.fst) (w :: ws) =
            w :: firstSeenAux (w :: m.map Prod.fst) ws
          from by simp only [firstSeenAux, if_neg hw],
        List.append_assoc, List.singleton_append]
      have hcg : firstSeenAux (List.map Prod.fst m ++ [w]) ws =
          firstSeenAux (w :: List.map Prod.fst m) ws := by
        refine firstSeenAux_congr ws _ _ ?_
        intro x
        simp [List.mem_append, List.mem_cons, or_comm]
      rw [hcg]

/-- Membership in the discovery-order list. -/
theorem mem_firstSeenAux (l : List String) :
    ∀ (seen : List String) (x : String),
      x ∈ firstSeenAux seen l ↔ x ∈ l ∧ x ∉ seen := by
  induction l with
  | nil => intro seen x; simp [firstSeenAux]
  | cons w ws ih =>
    intro seen x
    by_cases hw : w ∈ seen
    · simp only [firstSeenAux, if_pos hw, ih, List.mem_cons]
      constructor
      · rintro ⟨hx, hs⟩
        exact ⟨Or.inr hx, hs⟩
      · rintro ⟨hor, hs⟩
        rcases hor with rfl | hx
        · exact absurd hw hs
        · exact ⟨hx, hs⟩
    · simp only [firstSeenAux, if_neg hw, List.mem_cons, ih]
      constructor
      · rintro (rfl | ⟨hx, hs⟩)
        · exact ⟨Or.inl rfl, hw⟩
        · exact ⟨Or.inr hx, fun hc => hs (Or.inr hc)⟩
      · rintro ⟨hor, hs⟩
        by_cases hxw : x = w
        · exact Or.inl hxw
        · rcases hor with rfl | hx
          · exact absurd rfl hxw
          · exact Or.inr ⟨hx, fun hc => hc.elim hxw hs⟩

/-- The discovery-order list has no duplicates. -/
theorem nodup_firstSeenAux (l : List String) :
    ∀ seen : List String, (firstSeenAux seen l).Nodup := by
  induction l with
  | nil => intro seen; simp [firstSeenAux]
  | cons w ws ih =>
    intro seen
    by_cases hw : w ∈ seen
    · simp only [firstSeenAux, if_pos hw]
      exact ih seen
    · simp only [firstSeenAux, if_neg hw]
      refine List.nodup_cons.mpr ⟨?_, ih (w :: seen)⟩
      intro hc
      exact ((mem_firstSeenAux ws (w :: seen) w).mp hc).2 (List.mem_cons_self w seen)

/-- In a dictionary with distinct keys, each stored value is its lookup. -/
theorem getCount_of_mem (m : List (String × Nat)) :
    (m.map Prod.fst).Nodup → ∀ p ∈ m, p.2 = getCount m p.1 := by
  induction m with
  | nil => intro _ p hp; simp at hp
  | cons q m ih =>
    intro hnd p hp
    obtain ⟨k, v⟩ := q
    rw [List.map_cons] at hnd
    rcases List.mem_cons.mp hp with rfl | hpm
    · simp [getCount]
    · have hk : k ≠ p.1 := by
        intro hc
        exact (List.nodup_cons.mp hnd).1
          (hc ▸ List.mem_map.mpr ⟨p, hpm, rfl⟩)
      simp [getCount, hk, ih (List.nodup_cons.mp hnd).2 p hpm]

/-- Filtering dictionary entries on their stored count and projecting to
keys is filtering the key list on the counting function. -/
theorem filter_snd_map_fst (pb : Nat → Bool) (f : String → Nat) (m : List (String × Nat)) :
    (∀ p ∈ m, p.2 = f p.1) →
      (m.filter fun p => pb p.2).map Prod.fst =
        (m.map Prod.fst).filter fun w => pb (f w) := by
  induction m with
  | nil => intro _; rfl
  | cons q m ih =>
    intro h
    obtain ⟨k, v⟩ := q
    have hv : v = f k := h (k, v) (List.mem_cons_self _ _)
    have hrest := fun p hp => h p (List.mem_cons.mpr (Or.inr hp))
    by_cases hb : pb v = true <;>
      simp [List.filter_cons, hb, ← hv, ih hrest]

/-- The counting loop of `extract_key_terms` is the plain fold over the
pre-filtered word list. -/
theorem countFreq_eq (ws : List String) :
    countFreq ws = (ws.filter fun w => decide (w ∉ common_words)).foldl bump [] :=
  foldl_guard_eq_filter ws []

/-- The dictionary keys of `extract_key_terms` are the non-stopword words
in discovery order. -/
theorem map_fst_countFreq (ws : List String) :
    (countFreq ws).map Prod.fst =
      firstSeen (ws.filter fun w => decide (w ∉ common_words)) := by
  rw [countFreq_eq, map_fst_foldl_bump]
  simp [firstSeen]

/-- Each dictionary entry stores the occurrence count of its key. -/
theorem snd_countFreq (ws : List String) :
    ∀ p ∈ countFreq ws,
      p.2 = (ws.filter fun w => decide (w ∉ common_words)).count p.1 := by
  intro p hp
  have hnd : ((countFreq ws).map Prod.fst).Nodup := by
    rw [map_fst_countFreq]
    exact nodup_firstSeenAux _ _
  have h1 := getCount_of_mem (countFreq ws) hnd p hp
  rw [h1, countFreq_eq, getCount_foldl_bump]
  simp [getCount]

/-- Filtering the dictionary on its counts and projecting to keys gives
the discovery-order list filtered on observed frequency. -/
theorem filter_countFreq_map_fst (text : String) (pb : Nat → Bool) :
    ((countFreq (words text)).filter fun p => pb p.2).map Prod.fst =
      (firstSeen (nonStopWords text)).filter fun w => pb (obsFreq text w) := by
  have hsnd : ∀ p ∈ countFreq (words text),
      p.2 = (fun w => (nonStopWords text).count w) p.1 := by
    intro p hp
    exact snd_countFreq (words text) p hp
  rw [filter_snd_map_fst pb (fun w => (nonStopWords text).count w)
    (countFreq (words text)) hsnd, map_fst_countFreq]
  rfl

/-- Full characterisation of `extract_key_terms`: the frequency-2-or-more
terms in discovery order, followed (when they number fewer than 10) by an
initial segment of the frequency-1 terms in discovery order, truncated to
15. -/
theorem extract_key_terms_eq (text : String) :
    extract_key_terms text =
      ((primaryTerms text ++
        (if (primaryTerms text).length < 10
         then (singleTerms text).take (10 - (primaryTerms text).length)
         else [])).take 15) := by
  unfold extract_key_terms primaryTerms singleTerms
  dsimp only
  rw [filter_countFreq_map_fst text (fun n => decide (2 ≤ n)),
    filter_countFreq_map_fst text (fun n => decide (n = 1))]
  by_cases h : ((firstSeen (nonStopWords text)).filter
      fun w => decide (2 ≤ obsFreq text w)).length < 10
  · rw [if_pos h, if_pos h]
  · rw [if_neg h, if_neg h, List.append_nil]

/-! ## C2 -/

/-- C2: every record produced by `generate_multiple_choice` has exactly 4
options, and the option at index `correct_answer - 'A'` is the intended
correct text: `Related to {term} as mentioned in the context` in the
in-bounds branch, the first generic option in the fallback branch. -/
theorem C2_correct_option (text : String) (kt ss : List String) (rs rs' : List Nat)
    (qs : List MCQ) (h : generate_multiple_choice text kt ss rs = (some qs, rs'))
    (i : Nat) (hi : i < 3) :
    (qs.getD i genericMCQ).options.length = 4 ∧
    (qs.getD i genericMCQ).options.getD
        ((qs.getD i genericMCQ).correct_answer.toNat - 65) "" =
      (if i < kt.length ∧ i < ss.length then correctText (kt.getD i "")
       else "A main idea from the provided material") := by
  obtain ⟨q0, q1, q2, r1, r2, r3, h0, h1, h2, hg⟩ := generate_mc_spec text kt ss rs
  rw [hg] at h
  obtain ⟨hq, _⟩ := Prod.mk.injEq .. ▸ h
  replace hq := Option.some.inj hq
  subst hq
  interval_cases i
  · exact mcQuestion_options kt ss 0 rs r1 q0 h0
  · exact mcQuestion_options kt ss 1 r1 r2 q1 h1
  · exact mcQuestion_options kt ss 2 r2 r3 q2 h2

/-- Witness for C2 at a concrete call with three key terms, one long
sentence and an empty draw stream, checked at index 0. -/
theorem C2_witness :
    (([mcqAlpha, genericMCQ, genericMCQ] : List MCQ).getD 0 genericMCQ).options.length = 4 ∧
    (([mcqAlpha, genericMCQ, genericMCQ] : List MCQ).getD 0 genericMCQ).options.getD
        ((([mcqAlpha, genericMCQ, genericMCQ] : List MCQ).getD 0
          genericMCQ).correct_answer.toNat - 65) "" =
      (if 0 < (["alpha", "beta", "gamma"] : List String).length ∧
          0 < (["s one two three four five"] : List String).length
       then correctText ((["alpha", "beta", "gamma"] : List String).getD 0 "")
       else "A main idea from the provided material") :=
  C2_correct_option "" ["alpha", "beta", "gamma"] ["s one two three four five"] [] []
    [mcqAlpha, genericMCQ, genericMCQ] (by decide) 0 (by decide)

/-! ## C6 -/

/-- C6: `generate_content` is total: for every input string and every draw
sequence it produces a result (never `none`); in particular every
`random.choice` is performed on a non-empty list and the `options.index`
lookup always succeeds. -/
theorem C6_total (text : String) (rs : List Nat) :
    (generate_content text rs).1.isSome = true := by
  by_cases hs : (pyStrip text.data).isEmpty = true
  · have : generate_content text rs = (some ([], []), rs) := by
      unfold generate_content
      rw [if_pos hs]
    rw [this]
    rfl
  · obtain ⟨a, b, qs3, rs3, _, hcore⟩ :=
      generate_content_core_spec text (extract_key_terms text) (extract_sentences text) rs
    have : generate_content text rs =
        (some (["Essay Question 1: " ++ a, "Essay Question 2: " ++ b], qs3), rs3) := by
      unfold generate_content
      rw [if_neg hs]
      exact hcore
    rw [this]
    rfl

/-! ## C7 -/

/-- C7: the `i`-th record of `generate_multiple_choice` comes from the
in-bounds branch (question built from one of the 8 starters and
`key_terms[i]`) exactly when `i` is a valid index into both lists, and is
the fixed generic record otherwise; with an empty key-term list all three
records are the identical generic record. -/
theorem C7_branching (text : String) (kt ss : List String) (rs rs' : List Nat)
    (qs : List MCQ) (h : generate_multiple_choice text kt ss rs = (some qs, rs')) :
    qs.length = 3 ∧
    (∀ i, i < 3 →
      (i < kt.length ∧ i < ss.length →
        ∃ st, st ∈ question_starters ∧
          (qs.getD i genericMCQ).question = st ++ " " ++ kt.getD i "" ++ "?") ∧
      (¬(i < kt.length ∧ i < ss.length) → qs.getD i genericMCQ = genericMCQ)) ∧
    (kt = [] → qs = [genericMCQ, genericMCQ, genericMCQ]) := by
  obtain ⟨q0, q1, q2, r1, r2, r3, h0, h1, h2, hg⟩ := generate_mc_spec text kt ss rs
  rw [hg] at h
  obtain ⟨hq, _⟩ := Prod.mk.injEq .. ▸ h
  replace hq := Option.some.inj hq
  subst hq
  have key : ∀ i r0 r0' q, mcQuestion kt ss i r0 = (some q, r0') →
      (i < kt.length ∧ i < ss.length →
        ∃ st, st ∈ question_starters ∧ q.question = st ++ " " ++ kt.getD i "" ++ "?") ∧
      (¬(i < kt.length ∧ i < ss.length) → q = genericMCQ) := by
    intro i r0 r0' q hq
    constructor
    · intro hb
      obtain ⟨st, t1, t2, t3, sh, rs5, hstm, _, _, _, _, heq⟩ :=
        mcQuestion_inbounds kt ss i r0 hb.1 hb.2
      rw [heq] at hq
      obtain ⟨hq1, _⟩ := Prod.mk.injEq .. ▸ hq
      replace hq1 := Option.some.inj hq1
      exact ⟨st, hstm, by rw [← hq1]⟩
    · intro hb
      rw [mcQuestion_outbounds kt ss i r0 hb] at hq
      obtain ⟨hq1, _⟩ := Prod.mk.injEq .. ▸ hq
      exact (Option.some.inj hq1).symm
  refine ⟨rfl, ?_, ?_⟩
  · intro i hi
    interval_cases i
    · exact key 0 rs r1 q0 h0
    · exact key 1 r1 r2 q1 h1
    · exact key 2 r2 r3 q2 h2
  · intro hkt
    subst hkt
    have e0 := (key 0 rs r1 q0 h0).2 (by simp)
    have e1 := (key 1 r1 r2 q1 h1).2 (by simp)
    have e2 := (key 2 r2 r3 q2 h2).2 (by simp)
    rw [e0, e1, e2]

/-- Witness for C7: a 3-term key list with a single long sentence makes
index 0 a real question and indices 1 and 2 generic. -/
theorem C7_witness :
    ([mcqAlpha, genericMCQ, genericMCQ] : List MCQ).length = 3 ∧
    (∀ i, i < 3 →
      (i < (["alpha", "beta", "gamma"] : List String).length ∧
          i < (["s one two three four five"] : List String).length →
        ∃ st, st ∈ question_starters ∧
          (([mcqAlpha, genericMCQ, genericMCQ] : List MCQ).getD i genericMCQ).question =
            st ++ " " ++ (["alpha", "beta", "gamma"] : List String).getD i "" ++ "?") ∧
      (¬(i < (["alpha", "beta", "gamma"] : List String).length ∧
          i < (["s one two three four five"] : List String).length) →
        ([mcqAlpha, genericMCQ, genericMCQ] : List MCQ).getD i genericMCQ = genericMCQ)) ∧
    ((["alpha", "beta", "gamma"] : List String) = [] →
      ([mcqAlpha, genericMCQ, genericMCQ] : List MCQ) =
        [genericMCQ, genericMCQ, genericMCQ]) :=
  C7_branching "" ["alpha", "beta", "gamma"] ["s one two three four five"] [] []
    [mcqAlpha, genericMCQ, genericMCQ] (by decide)

/-! ## C9 -/

/-- C9: in every in-bounds (non-generic) record the 4 options are pairwise
distinct, whatever the key-term list and the draws, and the correct text
occurs exactly once, so the index lookup is unambiguous. -/
theorem C9_options_distinct (text : String) (kt ss : List String) (rs rs' : List Nat)
    (qs : List MCQ) (h : generate_multiple_choice text kt ss rs = (some qs, rs'))
    (i : Nat) (hi : i < 3) (h1 : i < kt.length) (h2 : i < ss.length) :
    (qs.getD i genericMCQ).options.Nodup ∧
    (qs.getD i genericMCQ).options.count (correctText (kt.getD i "")) = 1 := by
  obtain ⟨q0, q1, q2, r1, r2, r3, h0, h1', h2', hg⟩ := generate_mc_spec text kt ss rs
  rw [hg] at h
  obtain ⟨hq, _⟩ := Prod.mk.injEq .. ▸ h
  replace hq := Option.some.inj hq
  subst hq
  have key : ∀ r0 r0' q, mcQuestion kt ss i r0 = (some q, r0') →
      q.options.Nodup ∧ q.options.count (correctText (kt.getD i "")) = 1 := by
    intro r0 r0' q hq
    obtain ⟨st, t1, t2, t3, sh, rs5, _, _, _, _, hperm, heq⟩ :=
      mcQuestion_inbounds kt ss i r0 h1 h2
    rw [heq] at hq
    obtain ⟨hq1, _⟩ := Prod.mk.injEq .. ▸ hq
    replace hq1 := Option.some.inj hq1
    subst hq1
    have hnd : sh.Nodup :=
      hperm.nodup_iff.mpr (options_nodup (kt.getD i "") t1 t2 t3)
    have hmem : correctText (kt.getD i "") ∈ sh := hperm.mem_iff.mpr (by simp)
    exact ⟨hnd, List.count_eq_one_of_mem hnd hmem⟩
  interval_cases i
  · exact key rs r1 q0 h0
  · exact key r1 r2 q1 h1'
  · exact key r2 r3 q2 h2'

/-- Witness for C9 at the same concrete call, index 0. -/
theorem C9_witness :
    (([mcqAlpha, genericMCQ, genericMCQ] : List MCQ).getD 0 genericMCQ).options.Nodup ∧
    (([mcqAlpha, genericMCQ, genericMCQ] : List MCQ).getD 0 genericMCQ).options.count
        (correctText ((["alpha", "beta", "gamma"] : List String).getD 0 "")) = 1 :=
  C9_options_distinct "" ["alpha", "beta", "gamma"] ["s one two three four five"] [] []
    [mcqAlpha, genericMCQ, genericMCQ] (by decide) 0 (by decide) (by decide) (by decide)

/-! ## C10 -/

/-- C10: for a fixed key-term list and a fixed draw sequence, the output of
`generate_multiple_choice` depends on the sentence list only through its
length: the selected `context_sentence` is computed but never used. -/
theorem C10_sentences_only_length (text : String) (kt ss1 ss2 : List String)
    (rs : List Nat) (h : ss1.length = ss2.length) :
    generate_multiple_choice text kt ss1 rs = generate_multiple_choice text kt ss2 rs := by
  have hq : ∀ i rs0, mcQuestion kt ss1 i rs0 = mcQuestion kt ss2 i rs0 := by
    intro i rs0
    simp only [mcQuestion, h]
  simp only [generate_multiple_choice, hq]

/-- Witness for C10: two different single-sentence lists give identical
multiple-choice output. -/
theorem C10_witness :
    generate_multiple_choice "" ["alpha"] ["first sentence text here now"] [3, 1, 4, 1, 5] =
      generate_multiple_choice "" ["alpha"] ["a completely different sentence"] [3, 1, 4, 1, 5] :=
  C10_sentences_only_length "" ["alpha"] ["first sentence text here now"]
    ["a completely different sentence"] [3, 1, 4, 1, 5] (by decide)

/-! ## Shape of extracted words -/

/-- Every character of every run comes from the scanned list (or from the
accumulator the scan started with). -/
theorem mem_of_mem_runsAux (p : Char → Bool) :
    ∀ (l acc : List Char) (r : List Char), r ∈ runsAux p acc l →
      ∀ c ∈ r, c ∈ acc ∨ c ∈ l := by
  intro l
  induction l with
  | nil =>
    intro acc r hr c hc
    by_cases ha : acc.isEmpty
    · simp [runsAux, ha] at hr
    · simp only [runsAux, ha, Bool.false_eq_true, if_false, List.mem_singleton] at hr
      subst hr
      exact Or.inl (List.mem_reverse.mp hc)
  | cons c0 cs ih =>
    intro acc r hr c hc
    by_cases hp : p c0 = true
    · simp only [runsAux, hp, if_true] at hr
      rcases ih (c0 :: acc) r hr c hc with hca | hcs
      · rcases List.mem_cons.mp hca with rfl | h
        · exact Or.inr (List.mem_cons_self _ _)
        · exact Or.inl h
      · exact Or.inr (List.mem_cons.mpr (Or.inr hcs))
    · by_cases ha : acc.isEmpty
      · simp only [runsAux, hp, Bool.false_eq_true, if_false, ha, if_true] at hr
        rcases ih [] r hr c hc with hca | hcs
        · simp at hca
        · exact Or.inr (List.mem_cons.mpr (Or.inr hcs))
      · simp only [runsAux, hp, ha, Bool.false_eq_true, if_false, List.mem_cons] at hr
        rcases hr with rfl | hr2
        · exact Or.inl (List.mem_reverse.mp hc)
        · rcases ih [] r hr2 c hc with hca | hcs
          · simp at hca
          · exact Or.inr (List.mem_cons.mpr (Or.inr hcs))

/-- `Char.ofNat` on a value below the surrogate range keeps its code. -/
theorem toNat_ofNat_valid (n : Nat) (h : n < 55296) : (Char.ofNat n).toNat = n := by
  unfold Char.ofNat
  rw [dif_pos (Or.inl h)]
  rfl

/-- Characters in the image of the lowering map that the letter class
accepts are lowercase letters. -/
theorem pyLower_isLowerAlpha (c : Char)
    (h : isAsciiAlpha (pyLower c) = true) : isLowerAlpha (pyLower c) = true := by
  unfold pyLower at h ⊢
  by_cases hc : 65 ≤ c.toNat ∧ c.toNat ≤ 90
  · rw [if_pos hc] at h ⊢
    have hv : (Char.ofNat (c.toNat + 32)).toNat = c.toNat + 32 :=
      toNat_ofNat_valid _ (by omega)
    unfold isLowerAlpha
    rw [hv]
    exact decide_eq_true (by omega)
  · rw [if_neg hc] at h ⊢
    unfold isAsciiAlpha at h
    rcases Bool.or_eq_true_iff.mp h with h1 | h2
    · exact absurd (of_decide_eq_true h1) hc
    · exact h2

/-- Every extracted word has at least 3 characters and consists only of
lowercase letters. -/
theorem words_shape (text : String) :
    ∀ w ∈ words text, 3 ≤ w.length ∧ ∀ c ∈ w.data, isLowerAlpha c = true := by
  intro w hw
  unfold words at hw
  obtain ⟨r, hr, rfl⟩ := List.mem_map.mp hw
  obtain ⟨hr1, hr2⟩ := List.mem_filter.mp hr
  obtain ⟨h3, hall⟩ := Bool.and_eq_true_iff.mp hr2
  refine ⟨of_decide_eq_true h3, ?_⟩
  intro c hc
  have hca : isAsciiAlpha c = true := List.all_eq_true.mp hall c hc
  have hmem : c ∈ text.data.map pyLower := by
    rcases mem_of_mem_runsAux isWordChar (text.data.map pyLower) [] r hr1 c hc with h | h
    · simp at h
    · exact h
  obtain ⟨c0, _, rfl⟩ := List.mem_map.mp hmem
  exact pyLower_isLowerAlpha c0 hca

/-! ## C3 -/

/-- C3 counterexample: on `"foo foo bar bar bar"` the extractor returns
`["foo", "bar"]`, yet `foo` has observed frequency 2 and `bar` has 3, so
the list is not ordered by descending observed frequency. -/
theorem C3_counterexample :
    extract_key_terms "foo foo bar bar bar" = ["foo", "bar"] ∧
    obsFreq "foo foo bar bar bar" "foo" = 2 ∧
    obsFreq "foo foo bar bar bar" "bar" = 3 ∧
    ¬ List.Pairwise
        (fun a b => obsFreq "foo foo bar bar bar" b ≤ obsFreq "foo foo bar bar bar" a)
        (extract_key_terms "foo foo bar bar bar") :=
  ⟨by decide, by decide, by decide, by decide⟩

/-- C3 amended: the list is not sorted by descending frequency; it is the
frequency-2-or-more terms in first-seen (discovery) order followed by an
initial segment of the frequency-1 terms in discovery order, truncated
to 15. -/
theorem C3_discovery_order (text : String) :
    extract_key_terms text =
      (primaryTerms text ++
        (singleTerms text).take
          (if (primaryTerms text).length < 10
           then 10 - (primaryTerms text).length else 0)).take 15 := by
  rw [extract_key_terms_eq]
  by_cases h : (primaryTerms text).length < 10
  · rw [if_pos h, if_pos h]
  · rw [if_neg h, if_neg h, List.take_zero, List.append_nil]

/-! ## C4 -/

/-- C4: the primary terms are exactly the non-stopword words of observed
frequency at least 2 (in discovery order); frequency-1 words are appended
only when there are fewer than 10 primary terms, up to a total of 10; the
final list is truncated to 15; and no qualifying words give an empty
list. -/
theorem C4_selection (text : String) :
    extract_key_terms text =
      ((primaryTerms text ++
        (if (primaryTerms text).length < 10
         then (singleTerms text).take (10 - (primaryTerms text).length)
         else [])).take 15) ∧
    (∀ w, w ∈ primaryTerms text ↔ w ∈ nonStopWords text ∧ 2 ≤ obsFreq text w) ∧
    (nonStopWords text = [] → extract_key_terms text = []) := by
  refine ⟨extract_key_terms_eq text, ?_, ?_⟩
  · intro w
    unfold primaryTerms
    rw [List.mem_filter]
    constructor
    · rintro ⟨hd, hf⟩
      exact ⟨((mem_firstSeenAux (nonStopWords text) [] w).mp hd).1, of_decide_eq_true hf⟩
    · rintro ⟨hw, hf⟩
      exact ⟨(mem_firstSeenAux (nonStopWords text) [] w).mpr ⟨hw, by simp⟩,
        decide_eq_true hf⟩
  · intro hW
    rw [extract_key_terms_eq]
    unfold primaryTerms singleTerms firstSeen
    rw [hW]
    rfl

/-! ## C5 -/

/-- C5: the extracted key-term list has at most 15 entries, no duplicates,
no stopwords, and every entry is a lowercase alphabetic token of length at
least 3. -/
theorem C5_invariants (text : String) :
    (extract_key_terms text).length ≤ 15 ∧
    (extract_key_terms text).Nodup ∧
    ∀ w ∈ extract_key_terms text,
      w ∉ common_words ∧ 3 ≤ w.length ∧ ∀ c ∈ w.data, isLowerAlpha c = true := by
  have hD : (firstSeen (nonStopWords text)).Nodup := nodup_firstSeenAux _ _
  have hsub : ∀ w ∈ extract_key_terms text,
      w ∈ primaryTerms text ∨ w ∈ singleTerms text := by
    intro w hw
    rw [extract_key_terms_eq] at hw
    have hw2 := List.take_subset _ _ hw
    rcases List.mem_append.mp hw2 with h | h
    · exact Or.inl h
    · split at h
      · exact Or.inr (List.take_subset _ _ h)
      · simp at h
  refine ⟨?_, ?_, ?_⟩
  · rw [extract_key_terms_eq]
    exact List.length_take_le _ _
  · rw [extract_key_terms_eq]
    refine (List.take_sublist _ _).nodup ?_
    refine List.Nodup.append (hD.filter _) ?_ ?_
    · split
      · exact (List.take_sublist _ _).nodup (hD.filter _)
      · exact List.nodup_nil
    · intro w hwp hws
      have h2 : 2 ≤ obsFreq text w :=
        of_decide_eq_true (List.mem_filter.mp hwp).2
      have hpad : w ∈ singleTerms text := by
        split at hws
        · exact List.take_subset _ _ hws
        · simp at hws
      have h1 : obsFreq text w = 1 :=
        of_decide_eq_true (List.mem_filter.mp hpad).2
      omega
  · intro w hw
    have hWmem : w ∈ nonStopWords text := by
      rcases hsub w hw with h | h
      · exact ((mem_firstSeenAux (nonStopWords text) [] w).mp
          (List.mem_filter.mp h).1).1
      · exact ((mem_firstSeenAux (nonStopWords text) [] w).mp
          (List.mem_filter.mp h).1).1
    obtain ⟨hwords, hns⟩ := List.mem_filter.mp hWmem
    obtain ⟨hlen, hchars⟩ := words_shape text w hwords
    exact ⟨of_decide_eq_true hns, hlen, hchars⟩

/-! ## C8 -/

/-- C8: `extract_sentences` returns exactly the subsequence, in order and
with original casing, of the split-and-trimmed fragments whose whitespace
word count is at least 5; hence every returned sentence has at least 5
words (and the result may be empty, as on this degenerate shape). -/
theorem C8_sentence_filter (text : String) :
    extract_sentences text = sentencesSpec text ∧
    ∀ s ∈ extract_sentences text, 5 ≤ (pySplit s.data).length := by
  have hmain : extract_sentences text = sentencesSpec text := by
    unfold extract_sentences sentencesSpec
    generalize splitSentences text.data = frs
    induction frs with
    | nil => rfl
    | cons f fs ih =>
      simp only [meaningfulLoop, List.map_cons, List.filter_cons]
      by_cases h5 : 5 ≤ (pySplit (pyStrip f)).length
      · simp [h5, ih]
      · simp [h5, ih]
  refine ⟨hmain, ?_⟩
  intro s hs
  rw [hmain] at hs
  unfold sentencesSpec at hs
  obtain ⟨s2, hs2, rfl⟩ := List.mem_map.mp hs
  exact of_decide_eq_true (List.mem_filter.mp hs2).2

end QuizGenerator
